import Mathlib

/-!
espwhere: prefix table, prefix matching and the scan loop.

A shallow embedding of `main.go`: the prefix table built by `init` from the
embedded `espressifPrefixList`, the matching functions `hasMacPrefix` and
`checkForEspressif`, and the loop of `main` that fills `foundMacs`.

Conventions.
* A byte is a natural number; a Go `[]byte`, a `net.HardwareAddr` and a Go
  `string` (a byte sequence) are all `List Nat`.
* An index expression `mac[i]` is `mac[i]?`; `none` is the run-time panic
  "index out of range", and a function that can reach it returns an `Option`.
* `logrus ... Fatal` ends the process; `init` returns `Except Fatal`.
* The global `EspressifPrefixes` is passed explicitly.
* Log lines (`Info`) have no effect on the state and are left out.
-/

namespace Espwhere

/-! ## Strings -/

/-- The bytes of an ASCII string literal. -/
def asciiBytes (s : String) : List Nat := s.toList.map Char.toNat

/-- The byte `\t`. -/
def tab : Nat := 9

/-- The byte `\n`. -/
def newline : Nat := 10

/-- The byte `\r`. -/
def carriageReturn : Nat := 13

/-- Library `strings.Split(line, "\t")`: the substrings between the tabs; a
line with `n` tabs gives `n + 1` substrings, the empty line gives one. -/
def splitTab : List Nat → List (List Nat)
  | [] => [[]]
  | b :: rest =>
    if b = tab then [] :: splitTab rest
    else
      match splitTab rest with
      | [] => [[b]]
      | col :: cols => (b :: col) :: cols

/-- Library `bufio.MaxScanTokenSize`. -/
def maxScanTokenSize : Nat := 64 * 1024

/-- Library `bufio.dropCR`: drop one trailing `\r`. -/
def dropCR (data : List Nat) : List Nat :=
  if data.getLast? = some carriageReturn then data.dropLast else data

/-- The tokens that `scanner.Scan()` / `scanner.Text()` deliver for a
`bufio.Scanner` with the default split function `ScanLines`, reading the
remaining input; `cur` holds the bytes of the current line read so far, last
byte first.  A line ends at `\n` or at the end of the input, an empty rest at
the end of the input is no token, and a line of `maxScanTokenSize` bytes or
more does not fit the buffer: `Scan` returns false there (`ErrTooLong`) and
the loop of `init`, which does not look at `scanner.Err()`, ends. -/
def scanLinesFrom : List Nat → List Nat → List (List Nat)
  | cur, [] =>
    if cur = [] then []
    else if cur.length ≥ maxScanTokenSize then []
    else [dropCR cur.reverse]
  | cur, b :: rest =>
    if b = newline then
      if cur.length ≥ maxScanTokenSize then []
      else dropCR cur.reverse :: scanLinesFrom [] rest
    else scanLinesFrom (b :: cur) rest

/-- The lines a `bufio.NewScanner(strings.NewReader(text))` delivers. -/
def scanLines (text : List Nat) : List (List Nat) := scanLinesFrom [] text

/-! ## Hexadecimal decoding (library `encoding/hex`) -/

/-- The two errors of `hex.DecodeString`. -/
inductive HexError where
  | InvalidByteError (b : Nat)
  | ErrLength
  deriving DecidableEq, Repr

/-- Library `reverseHexTable`: the value of a hexadecimal digit, in either
case; `none` is the table entry `0xff`. -/
def fromHexChar (b : Nat) : Option Nat :=
  if 48 ≤ b ∧ b ≤ 57 then some (b - 48)
  else if 97 ≤ b ∧ b ≤ 102 then some (b - 97 + 10)
  else if 65 ≤ b ∧ b ≤ 70 then some (b - 65 + 10)
  else none

/-- Library `hex.DecodeString`: two digits give one byte; the first bad
digit, or an odd length, is an error. -/
def decodeString : List Nat → Except HexError (List Nat)
  | [] => .ok []
  | [p] =>
    match fromHexChar p with
    | none => .error (.InvalidByteError p)
    | some _ => .error .ErrLength
  | p :: q :: rest =>
    match fromHexChar p with
    | none => .error (.InvalidByteError p)
    | some a =>
      match fromHexChar q with
      | none => .error (.InvalidByteError q)
      | some b =>
        match decodeString rest with
        | .error e => .error e
        | .ok bytes => .ok ((a * 16 + b) :: bytes)

/-! ## The prefix table (`init`) -/

/-- The embedded list, one row per line: hexadecimal prefix, tab, display form. -/
def espressifPrefixList : List Nat := asciiBytes "782184\t78-21-84
1097BD\t10-97-BD
30C6F7\t30-C6-F7
24D7EB\t24-D7-EB
70B8F6\t70-B8-F6
485519\t48-55-19
E89F6D\tE8-9F-6D
D4F98D\tD4-F9-8D
4CEBD6\t4C-EB-D6
349454\t34-94-54
686725\t68-67-25
58CF79\t58-CF-79
1091A8\t10-91-A8
90380C\t90-38-0C
58BF25\t58-BF-25
7C87CE\t7C-87-CE
943CC6\t94-3C-C6
6055F9\t60-55-F9
409151\t40-91-51
308398\t30-83-98
1C9DC2\t1C-9D-C2
AC0BFB\tAC-0B-FB
84F703\t84-F7-03
34865D\t34-86-5D
78E36D\t78-E3-6D
98CDAC\t98-CD-AC
9C9C1F\t9C-9C-1F
4C7525\t4C-75-25
441793\t44-17-93
EC94CB\tEC-94-CB
A4E57C\tA4-E5-7C
8C4B14\t8C-4B-14
C8C9A3\tC8-C9-A3
34B472\t34-B4-72
A848FA\tA8-48-FA
34AB95\t34-AB-95
BCFF4D\tBC-FF-4D
C45BBE\tC4-5B-BE
545AA6\t54-5A-A6
2C3AE8\t2C-3A-E8
ECFABC\tEC-FA-BC
DC4F22\tDC-4F-22
B4E62D\tB4-E6-2D
3C71BF\t3C-71-BF
2CF432\t2C-F4-32
4C11AE\t4C-11-AE
B8F009\tB8-F0-09
7C9EBD\t7C-9E-BD
F008D1\tF0-08-D1
483FDA\t48-3F-DA
18FE34\t18-FE-34
A47B9D\tA4-7B-9D
84F3EB\t84-F3-EB
840D8E\t84-0D-8E
C82B96\tC8-2B-96
84CCA8\t84-CC-A8
40F520\t40-F5-20
10521C\t10-52-1C
F4CFA2\tF4-CF-A2
E09806\tE0-98-06
30AEA4\t30-AE-A4
C44F33\tC4-4F-33
D8F15B\tD8-F1-5B
AC67B2\tAC-67-B2
7CDFA1\t7C-DF-A1
8CAAB5\t8C-AA-B5
5CCF7F\t5C-CF-7F
A020A6\tA0-20-A6
24B2DE\t24-B2-DE
D8A01D\tD8-A0-1D
BCDDC2\tBC-DD-C2
CC50E3\tCC-50-E3
A4CF12\tA4-CF-12
2462AB\t24-62-AB
500291\t50-02-91
D8BFC0\tD8-BF-C0
98F4AB\t98-F4-AB
70039F\t70-03-9F
FCF5C4\tFC-F5-C4
ACD074\tAC-D0-74
9097D5\t90-97-D5
600194\t60-01-94
240AC4\t24-0A-C4
68C63A\t68-C6-3A
807D3A\t80-7D-3A
246F28\t24-6F-28
C4DD57\tC4-DD-57
A8032A\tA8-03-2A
24A160\t24-A1-60
E8DB84\tE8-DB-84
E868E7\tE8-68-E7
94B97E\t94-B9-7E
083AF2\t08-3A-F2
E0E2E6\tE0-E2-E6
A0764E\tA0-76-4E
0CDC7E\t0C-DC-7E
3C6105\t3C-61-05
8CCE4E\t8C-CE-4E"

/-- The three `Fatal` calls of `init`, with the fields they log. -/
inductive Fatal where
  | FailedToReadColumns (columnCount : Nat) (column : List Nat)
  | FailedToParseEspressifPrefix (column : List Nat) (err : HexError)
  | ParsedInvalidPrefix (column : List Nat) (prefixLen : Nat)
  deriving DecidableEq, Repr

/-- The body of the loop of `init` for one `line`. -/
def initStep (EspressifPrefixes : List (List Nat)) (line : List Nat) :
    Except Fatal (List (List Nat)) :=
  match splitTab line with
  | [column0, _] =>
    match decodeString column0 with
    | .error err => .error (.FailedToParseEspressifPrefix column0 err)
    | .ok pre =>
      if pre.length > 3 then .error (.ParsedInvalidPrefix column0 pre.length)
      else .ok (EspressifPrefixes ++ [pre])
  | columns => .error (.FailedToReadColumns columns.length line)

/-- The loop `for scanner.Scan()` of `init` over the lines the scanner
delivers, from the table built so far. -/
def initLoop : List (List Nat) → List (List Nat) → Except Fatal (List (List Nat))
  | [], EspressifPrefixes => .ok EspressifPrefixes
  | line :: lines, EspressifPrefixes =>
    match initStep EspressifPrefixes line with
    | .error e => .error e
    | .ok table => initLoop lines table

/-- Table construction from a text: the scanner, then the loop from the
empty table. -/
def initFrom (text : List Nat) : Except Fatal (List (List Nat)) :=
  initLoop (scanLines text) []

/-- The function `init`: table construction from the embedded list. -/
def init : Except Fatal (List (List Nat)) := initFrom espressifPrefixList

/-! ## Matching -/

/-- The `for i, p := range prefix` loop of `hasMacPrefix`, entered at index
`i` with the bytes of the prefix that are still to be compared. -/
def hasMacPrefixLoop (mac : List Nat) : Nat → List Nat → Option Bool
  | _, [] => some true
  | i, p :: rest =>
    match mac[i]? with
    | none => none
    | some b => if b ≠ p then some false else hasMacPrefixLoop mac (i + 1) rest

/-- The function `hasMacPrefix(mac, prefix)`: the length guard, then the loop. -/
def hasMacPrefix (mac pre : List Nat) : Option Bool :=
  if pre.length > mac.length then some false else hasMacPrefixLoop mac 0 pre

/-- The function `checkForEspressif(mac)` over the table `EspressifPrefixes`. -/
def checkForEspressif (EspressifPrefixes : List (List Nat)) (mac : List Nat) : Option Bool :=
  match EspressifPrefixes with
  | [] => some false
  | pre :: rest =>
    match hasMacPrefix mac pre with
    | none => none
    | some true => some true
    | some false => checkForEspressif rest mac

/-! ## The scan loop of `main` -/

/-- Library `hexDigit` of package `net`. -/
def hexDigit : List Nat := asciiBytes "0123456789abcdef"

/-- Library `net.HardwareAddr.String`: two lower-case hexadecimal digits for
each byte, `hexDigit[b>>4]` and `hexDigit[b&0xF]`, with `:` between bytes;
the empty address gives the empty string.  A byte is below 256, so both
indices are below 16. -/
def hardwareAddrString : List Nat → List Nat
  | [] => []
  | [b] => [hexDigit.getD (b / 16) 0, hexDigit.getD (b % 16) 0]
  | b :: rest =>
    hexDigit.getD (b / 16) 0 :: hexDigit.getD (b % 16) 0 :: 58 :: hardwareAddrString rest

/-- The layer `*layers.Dot11`, with the four address fields the loop reads. -/
structure Dot11 where
  Address1 : List Nat
  Address2 : List Nat
  Address3 : List Nat
  Address4 : List Nat
  deriving DecidableEq, Repr

/-- A `gopacket.Packet` as far as `main` looks at it: its bytes, the result
of `ErrorLayer()` (`none` is nil, otherwise the bytes that failed to decode)
and the result of `Layer(layers.LayerTypeDot11)` (`none` is nil). -/
structure Packet where
  data : List Nat
  ErrorLayer : Option (List Nat)
  Dot11Layer : Option Dot11
  deriving DecidableEq, Repr

/-- The map `foundMacs`, a `map[string]gopacket.Packet`, as a list of
entries with distinct keys; the order of the list has no meaning. -/
abbrev MatchSet := List (List Nat × Packet)

/-- The assignment `foundMacs[key] = packet`: replaces the entry of `key`
when there is one, adds an entry otherwise. -/
def mapSet : MatchSet → List Nat → Packet → MatchSet
  | [], key, packet => [(key, packet)]
  | (k, v) :: rest, key, packet =>
    if k = key then (key, packet) :: rest else (k, v) :: mapSet rest key packet

/-- The lookup `foundMacs[key]`, `none` when `key` is absent. -/
def mapGet : MatchSet → List Nat → Option Packet
  | [], _ => none
  | (k, v) :: rest, key => if k = key then some v else mapGet rest key

/-- One of the four `if checkForEspressif(address)` blocks of the loop body. -/
def checkAddress (EspressifPrefixes : List (List Nat)) (packet : Packet)
    (foundMacs : MatchSet) (address : List Nat) : Option MatchSet :=
  match checkForEspressif EspressifPrefixes address with
  | none => none
  | some true => some (mapSet foundMacs (hardwareAddrString address) packet)
  | some false => some foundMacs

/-- The body of `for packet := range packetSource.Packets()`. -/
def scanPacket (EspressifPrefixes : List (List Nat)) (foundMacs : MatchSet)
    (packet : Packet) : Option MatchSet :=
  match packet.ErrorLayer with
  | some _ => some foundMacs
  | none =>
    match packet.Dot11Layer with
    | none => some foundMacs
    | some dot11Info =>
      match checkAddress EspressifPrefixes packet foundMacs dot11Info.Address1 with
      | none => none
      | some m1 =>
        match checkAddress EspressifPrefixes packet m1 dot11Info.Address2 with
        | none => none
        | some m2 =>
          match checkAddress EspressifPrefixes packet m2 dot11Info.Address3 with
          | none => none
          | some m3 => checkAddress EspressifPrefixes packet m3 dot11Info.Address4

/-- The loop over the packets the source delivers, from the map built so far. -/
def scanLoop (EspressifPrefixes : List (List Nat)) : List Packet → MatchSet → Option MatchSet
  | [], foundMacs => some foundMacs
  | packet :: packets, foundMacs =>
    match scanPacket EspressifPrefixes foundMacs packet with
    | none => none
    | some m => scanLoop EspressifPrefixes packets m

/-- The scan of `main`: `foundMacs := make(map[string]gopacket.Packet)`, then
the loop. -/
def scan (EspressifPrefixes : List (List Nat)) (packets : List Packet) : Option MatchSet :=
  scanLoop EspressifPrefixes packets []

/-! ## Vocabulary of the statements -/

/-- The condition the statements put on a frame and a key: the frame has no
error layer, has a Dot11 layer, and one of its four address fields matches
the table and has the key as its canonical string. -/
def carriesKey (T : List (List Nat)) (key : List Nat) (packet : Packet) : Bool :=
  match packet.ErrorLayer, packet.Dot11Layer with
  | none, some d =>
    decide (∃ a ∈ [d.Address1, d.Address2, d.Address3, d.Address4],
      checkForEspressif T a = some true ∧ hardwareAddrString a = key)
  | _, _ => false

/-- The first column of a row, `columns[0]`; `strings.Split` always returns
at least one column. -/
def firstColumn (line : List Nat) : List Nat := (splitTab line).headD []

/-- A hexadecimal character: a digit, or a letter `a` to `f` in either case. -/
def isHexDigit (b : Nat) : Bool := decide (b ∈ asciiBytes "0123456789abcdefABCDEF")

/-- A well-formed row: it splits on TAB into exactly two columns, its first
column decodes as hexadecimal, and the decoded prefix has at most 3 bytes. -/
def wellFormedRow (line : List Nat) : Bool :=
  decide ((splitTab line).length = 2) &&
    match decodeString (firstColumn line) with
    | .ok pre => decide (pre.length ≤ 3)
    | .error _ => false

/-- A malformed row: it does not split on TAB into exactly two columns, or its
first column is not valid hexadecimal (an odd number of characters or a
character that is no hexadecimal character), or its decoded prefix is longer
than 3 bytes. -/
def malformedRow (line : List Nat) : Bool :=
  decide ((splitTab line).length ≠ 2) ||
    (decide ((firstColumn line).length % 2 = 1) ||
      (firstColumn line).any fun b => !isHexDigit b) ||
    match decodeString (firstColumn line) with
    | .ok pre => decide (pre.length > 3)
    | .error _ => false

/-! ## Concrete inputs -/

/-- A table with the one prefix `78:21:84`. -/
def exampleTable : List (List Nat) := [[0x78, 0x21, 0x84]]

/-- The address `78:21:84:AA:BB:CC`. -/
def exampleAddress : List Nat := [0x78, 0x21, 0x84, 0xAA, 0xBB, 0xCC]

/-- A frame without error layer that carries `exampleAddress` as `Address1`. -/
def exampleFrame1 : Packet :=
  { data := [1], ErrorLayer := none, Dot11Layer := some ⟨exampleAddress, [], [], []⟩ }

/-- A later frame without error layer that carries `exampleAddress` as `Address2`. -/
def exampleFrame2 : Packet :=
  { data := [2], ErrorLayer := none, Dot11Layer := some ⟨[], exampleAddress, [], []⟩ }

/-- Three well-formed rows, the first and the last the same. -/
def exampleRows : List (List Nat) :=
  [asciiBytes "782184\t78-21-84", asciiBytes "0cdc\tshort", asciiBytes "782184\t78-21-84"]

/-- A row whose first column is empty. -/
def emptyPrefixRow : List Nat := asciiBytes "\tnone"

/-- The address `78:21:84:00:00:01`. -/
def exampleAddress2 : List Nat := [0x78, 0x21, 0x84, 0x00, 0x00, 0x01]

/-- A frame without error layer whose `Address1` and `Address2` are two
different addresses that both match `exampleTable`. -/
def exampleFrameTwoDevices : Packet :=
  { data := [3], ErrorLayer := none,
    Dot11Layer := some ⟨exampleAddress, exampleAddress2, [], []⟩ }

/-- The hardware addresses the device count is about: the addresses among the
four address fields of the frames that have no error layer and have a Dot11
layer, that match the table. -/
def matchingAddresses (T : List (List Nat)) (packets : List Packet) : List (List Nat) :=
  packets.flatMap fun p =>
    match p.ErrorLayer, p.Dot11Layer with
    | none, some d =>
      [d.Address1, d.Address2, d.Address3, d.Address4].filter fun a =>
        decide (checkForEspressif T a = some true)
    | _, _ => []

/-- The typing of `net.HardwareAddr` as a `[]byte`: every element of the four
address fields of the frame is below 256. -/
def addressBytesValid (p : Packet) : Bool :=
  match p.Dot11Layer with
  | none => true
  | some d =>
    [d.Address1, d.Address2, d.Address3, d.Address4].all fun a =>
      a.all fun b => decide (b < 256)

/-- The lines of a text, as the claims count them: the runs of bytes between
the `\n`s, and the bytes after the last `\n` when there are any; `cur` holds
the bytes of the current line read so far, last byte first. -/
def textLinesFrom : List Nat → List Nat → List (List Nat)
  | cur, [] => if cur = [] then [] else [cur.reverse]
  | cur, b :: rest =>
    if b = newline then cur.reverse :: textLinesFrom [] rest
    else textLinesFrom (b :: cur) rest

/-- The lines of a text. -/
def textLines (text : List Nat) : List (List Nat) := textLinesFrom [] text

/-- The rows of a text: its lines, each without one trailing `\r`. -/
def textRows (text : List Nat) : List (List Nat) := (textLines text).map dropCR

/-- A well-formed row of `n + 3` bytes: the first column `bb`, a tab, and `n`
times the letter `x`. -/
def longRowOf (n : Nat) : List Nat := asciiBytes "bb\t" ++ List.replicate n 120

/-- A text of three well-formed rows, the second one `longRowOf n`. -/
def longRowText (n : Nat) : List Nat :=
  asciiBytes "aa\tb\n" ++ (longRowOf n ++ asciiBytes "\ncc\td")

/-- A text of three rows: a well-formed one, `longRowOf n`, and the malformed
row `zz`. -/
def longRowThenMalformedText (n : Nat) : List Nat :=
  asciiBytes "aa\tb\n" ++ (longRowOf n ++ asciiBytes "\nzz")

/-- A text of three well-formed rows, the first ending in `\r\n`, the last
without a line end. -/
def exampleText : List Nat :=
  asciiBytes "782184\t78-21-84\r\n0cdc\tshort\n782184\t78-21-84"

/-- A text of two rows, the second one malformed. -/
def exampleMalformedText : List Nat := asciiBytes "782184\t78-21-84\nzz\n"

end Espwhere

namespace Espwhere

/-! ## Matching: what the two functions compute -/

theorem hasMacPrefixLoop_eq (mac : List Nat) :
    ∀ (pre : List Nat) (i : Nat), i + pre.length ≤ mac.length →
      hasMacPrefixLoop mac i pre = some (decide ((mac.drop i).take pre.length = pre)) := by
  intro pre
  induction pre with
  | nil => intro i _; simp [hasMacPrefixLoop]
  | cons p rest ih =>
    intro i h
    have hi : i < mac.length := by simp at h; omega
    have hd : mac.drop i = mac[i] :: mac.drop (i + 1) := List.drop_eq_getElem_cons hi
    have hrest : i + 1 + rest.length ≤ mac.length := by simp at h; omega
    simp only [hasMacPrefixLoop, List.getElem?_eq_getElem hi, ih (i + 1) hrest, hd,
      List.length_cons, List.take_succ_cons, List.cons.injEq]
    by_cases hb : mac[i] = p
    · simp [hb]
    · simp [hb]

theorem hasMacPrefix_eq (mac pre : List Nat) :
    hasMacPrefix mac pre =
      some (decide (pre.length ≤ mac.length ∧ mac.take pre.length = pre)) := by
  unfold hasMacPrefix
  by_cases h : pre.length > mac.length
  · simp [h]
  · have h2 : pre.length ≤ mac.length := by omega
    rw [if_neg h, hasMacPrefixLoop_eq mac pre 0 (by omega)]
    simp [h2]

theorem checkForEspressif_eq (T : List (List Nat)) (mac : List Nat) :
    checkForEspressif T mac =
      some (T.any fun pre => decide (pre.length ≤ mac.length ∧ mac.take pre.length = pre)) := by
  induction T with
  | nil => simp [checkForEspressif]
  | cons pre rest ih =>
    simp only [checkForEspressif, hasMacPrefix_eq, ih, List.any_cons]
    by_cases h : pre.length ≤ mac.length ∧ mac.take pre.length = pre
    · simp [h]
    · simp [h]

/-- C1: for every `prefix` of length `L` and every `mac`, when
`len(mac) >= L` the call `hasMacPrefix(mac, prefix)` returns true exactly
when the first `L` bytes of `mac` are `prefix` (and false exactly when they
are not), and when `L > len(mac)` it returns false. -/
theorem hasMacPrefix_spec (mac pre : List Nat) :
    (pre.length ≤ mac.length →
      (hasMacPrefix mac pre = some true ↔ mac.take pre.length = pre) ∧
      (hasMacPrefix mac pre = some false ↔ mac.take pre.length ≠ pre)) ∧
    (mac.length < pre.length → hasMacPrefix mac pre = some false) := by
  rw [hasMacPrefix_eq]
  refine ⟨fun h => ⟨?_, ?_⟩, fun h => ?_⟩
  · simp [h]
  · simp [h]
  · have : ¬ pre.length ≤ mac.length := by omega
    simp [this]

/-- C2: for every table and every `mac`, of any length, `checkForEspressif(mac)`
returns true exactly when some prefix `p` of the table has
`hasMacPrefix(mac, p)` true, returns false exactly when none has, and returns
false over the empty table. -/
theorem checkForEspressif_spec (T : List (List Nat)) (mac : List Nat) :
    (checkForEspressif T mac = some true ↔ ∃ p ∈ T, hasMacPrefix mac p = some true) ∧
    (checkForEspressif T mac = some false ↔ ¬ ∃ p ∈ T, hasMacPrefix mac p = some true) ∧
    checkForEspressif [] mac = some false := by
  refine ⟨?_, ?_, rfl⟩
  · simp only [checkForEspressif_eq, hasMacPrefix_eq, Option.some.injEq, List.any_eq_true]
  · simp only [checkForEspressif_eq, hasMacPrefix_eq, Option.some.injEq, List.any_eq_false,
      not_exists, not_and, Bool.not_eq_true]

/-- C3: `init` succeeds on the embedded list, which has the row `782184`; the
table it builds holds the prefix `78:21:84`, and over that table
`checkForEspressif` is true for `78:21:84:AA:BB:CC`, false for
`78:21:85:AA:BB:CC` and false for the two-byte address `78:21`. -/
theorem checkForEspressif_embedded_examples :
    asciiBytes "782184\t78-21-84" ∈ scanLines espressifPrefixList ∧
    ∃ T, init = .ok T ∧ [0x78, 0x21, 0x84] ∈ T ∧
      checkForEspressif T [0x78, 0x21, 0x84, 0xAA, 0xBB, 0xCC] = some true ∧
      checkForEspressif T [0x78, 0x21, 0x85, 0xAA, 0xBB, 0xCC] = some false ∧
      checkForEspressif T [0x78, 0x21] = some false := by
  refine ⟨by decide, (init.toOption).getD [], rfl, by decide, by decide, by decide,
    by decide⟩

/-! ## The map -/

theorem mapGet_mapSet (m : MatchSet) (k : List Nat) (v : Packet) (k' : List Nat) :
    mapGet (mapSet m k v) k' = if k = k' then some v else mapGet m k' := by
  induction m with
  | nil => simp [mapSet, mapGet]
  | cons e rest ih =>
    obtain ⟨k0, v0⟩ := e
    by_cases h0 : k0 = k
    · subst h0
      by_cases h1 : k0 = k' <;> simp [mapSet, mapGet, h1]
    · by_cases h1 : k0 = k'
      · subst h1
        have : ¬ k = k0 := fun h => h0 h.symm
        simp [mapSet, mapGet, h0, this]
      · simp [mapSet, mapGet, h0, h1, ih]

theorem mapGet_isSome_iff (m : MatchSet) (k : List Nat) :
    (∃ v, mapGet m k = some v) ↔ k ∈ m.map Prod.fst := by
  induction m with
  | nil => simp [mapGet]
  | cons e rest ih =>
    obtain ⟨k0, v0⟩ := e
    by_cases h0 : k0 = k
    · simp [mapGet, h0]
    · have : ¬ k = k0 := fun h => h0 h.symm
      simp [mapGet, h0, this, ih]

theorem keys_mapSet (m : MatchSet) (k : List Nat) (v : Packet) :
    (mapSet m k v).map Prod.fst = if k ∈ m.map Prod.fst then m.map Prod.fst
      else m.map Prod.fst ++ [k] := by
  induction m with
  | nil => simp [mapSet]
  | cons e rest ih =>
    obtain ⟨k0, v0⟩ := e
    by_cases h0 : k0 = k
    · simp [mapSet, h0]
    · have : ¬ k = k0 := fun h => h0 h.symm
      simp only [mapSet, h0, if_false, List.map_cons, ih, List.mem_cons, this, false_or]
      split <;> simp

theorem nodup_keys_mapSet (m : MatchSet) (k : List Nat) (v : Packet)
    (h : (m.map Prod.fst).Nodup) : ((mapSet m k v).map Prod.fst).Nodup := by
  rw [keys_mapSet]
  split
  · exact h
  · rename_i hk
    exact List.Nodup.append h (List.nodup_singleton k) (by simpa using hk)

/-! ## One packet -/

theorem checkAddress_eq (T : List (List Nat)) (packet : Packet) (m : MatchSet) (a : List Nat) :
    checkAddress T packet m a =
      some (if checkForEspressif T a = some true then mapSet m (hardwareAddrString a) packet
        else m) := by
  unfold checkAddress
  rw [checkForEspressif_eq]
  cases (T.any fun pre => decide (pre.length ≤ a.length ∧ a.take pre.length = pre)) <;> simp

theorem scanPacket_spec (T : List (List Nat)) (m0 : MatchSet) (packet : Packet) :
    ∃ m1, scanPacket T m0 packet = some m1 ∧
      (∀ k, mapGet m1 k = if carriesKey T k packet then some packet else mapGet m0 k) ∧
      ((m0.map Prod.fst).Nodup → (m1.map Prod.fst).Nodup) := by
  unfold scanPacket carriesKey
  cases hE : packet.ErrorLayer with
  | some e => exact ⟨m0, rfl, by simp, id⟩
  | none =>
    cases hD : packet.Dot11Layer with
    | none => exact ⟨m0, rfl, by simp, id⟩
    | some d =>
      simp only [checkAddress_eq]
      refine ⟨_, rfl, ?_, ?_⟩
      · intro k
        have step : ∀ (m : MatchSet) (a : List Nat),
            mapGet (if checkForEspressif T a = some true
                then mapSet m (hardwareAddrString a) packet else m) k =
              if checkForEspressif T a = some true ∧ hardwareAddrString a = k
                then some packet else mapGet m k := by
          intro m a
          by_cases h : checkForEspressif T a = some true <;> simp [h, mapGet_mapSet]
        simp only [step, List.mem_cons, List.mem_singleton, exists_eq_or_imp, exists_eq_left,
          decide_eq_true_eq, List.not_mem_nil, false_and, exists_false, or_false]
        by_cases c1 : checkForEspressif T d.Address1 = some true ∧
            hardwareAddrString d.Address1 = k <;>
        by_cases c2 : checkForEspressif T d.Address2 = some true ∧
            hardwareAddrString d.Address2 = k <;>
        by_cases c3 : checkForEspressif T d.Address3 = some true ∧
            hardwareAddrString d.Address3 = k <;>
        by_cases c4 : checkForEspressif T d.Address4 = some true ∧
            hardwareAddrString d.Address4 = k <;>
        simp [c1, c2, c3, c4]
      · intro h
        repeat' split
        all_goals first | exact h | ((repeat' apply nodup_keys_mapSet); exact h)

/-! ## The loop -/

theorem carriesKey_iff (T : List (List Nat)) (k : List Nat) (packet : Packet) :
    carriesKey T k packet = true ↔
      packet.ErrorLayer = none ∧ ∃ d, packet.Dot11Layer = some d ∧
        ∃ a ∈ [d.Address1, d.Address2, d.Address3, d.Address4],
          checkForEspressif T a = some true ∧ hardwareAddrString a = k := by
  unfold carriesKey
  cases hE : packet.ErrorLayer with
  | some e => simp
  | none =>
    cases hD : packet.Dot11Layer with
    | none => simp
    | some d => simp

theorem scanLoop_spec (T : List (List Nat)) :
    ∀ (packets : List Packet) (m0 : MatchSet),
      ∃ m, scanLoop T packets m0 = some m ∧
        (∀ k, mapGet m k =
          match (packets.filter (carriesKey T k)).getLast? with
          | some v => some v
          | none => mapGet m0 k) ∧
        ((m0.map Prod.fst).Nodup → (m.map Prod.fst).Nodup) := by
  intro packets
  induction packets with
  | nil => intro m0; exact ⟨m0, rfl, by simp, id⟩
  | cons p rest ih =>
    intro m0
    obtain ⟨m1, h1, hget1, hnd1⟩ := scanPacket_spec T m0 p
    obtain ⟨m, h2, hget, hnd⟩ := ih m1
    refine ⟨m, by simp [scanLoop, h1, h2], ?_, fun h => hnd (hnd1 h)⟩
    intro k
    rw [hget k, hget1 k]
    by_cases hc : carriesKey T k p = true
    · rw [List.filter_cons_of_pos hc]
      cases hf : rest.filter (carriesKey T k) with
      | nil => simp [hc]
      | cons x xs => simp only [List.getLast?_cons_cons]; rw [List.getLast?_cons]
    · rw [List.filter_cons_of_neg hc]
      simp [hc]

theorem scan_spec (T : List (List Nat)) (packets : List Packet) :
    ∃ m, scan T packets = some m ∧
      (∀ k, mapGet m k = (packets.filter (carriesKey T k)).getLast?) ∧
      (m.map Prod.fst).Nodup := by
  obtain ⟨m, h, hget, hnd⟩ := scanLoop_spec T packets []
  refine ⟨m, h, ?_, hnd (by simp)⟩
  intro k
  rw [hget k]
  cases (packets.filter (carriesKey T k)).getLast? <;> simp [mapGet]

theorem length_le_one_of_nodup_of_all_eq {l : List (List Nat)} {k : List Nat}
    (hnd : l.Nodup) (hall : ∀ x ∈ l, x = k) : l.length ≤ 1 := by
  match l, hnd, hall with
  | [], _, _ => simp
  | [_], _, _ => simp
  | a :: b :: _, hnd, hall =>
    have ha : a = k := hall a (by simp)
    have hb : b = k := hall b (by simp)
    simp [ha, hb] at hnd

theorem scanLoop_skip (T : List (List Nat)) (keep : Packet → Bool)
    (hskip : ∀ p m, keep p = false → scanPacket T m p = some m) :
    ∀ (packets : List Packet) (m0 : MatchSet),
      scanLoop T (packets.filter keep) m0 = scanLoop T packets m0 := by
  intro packets
  induction packets with
  | nil => intro m0; rfl
  | cons p rest ih =>
    intro m0
    cases hk : keep p with
    | false =>
      rw [List.filter_cons_of_neg (by simp [hk])]
      simp [scanLoop, hskip p m0 hk, ih]
    | true =>
      rw [List.filter_cons_of_pos hk]
      simp only [scanLoop]
      cases scanPacket T m0 p with
      | none => rfl
      | some m => exact ih m

theorem getLast?_filter_eq_some_iff (c : Packet → Bool) (l : List Packet) (v : Packet) :
    (l.filter c).getLast? = some v ↔
      ∃ before after, l = before ++ v :: after ∧ c v = true ∧ ∀ p ∈ after, c p = false := by
  constructor
  · intro h
    obtain ⟨ys, hys⟩ := List.getLast?_eq_some_iff.1 h
    obtain ⟨l₁, l₂, hl, _, h2⟩ := List.filter_eq_append_iff.1 hys
    obtain ⟨l₃, l₄, hl2, _, hv, h4⟩ := List.filter_eq_cons_iff.1 h2
    refine ⟨l₁ ++ l₃, l₄, by simp [hl, hl2], hv, ?_⟩
    intro p hp
    have := List.filter_eq_nil_iff.1 h4 p hp
    simpa using this
  · rintro ⟨before, after, rfl, hv, hafter⟩
    have h4 : after.filter c = [] :=
      List.filter_eq_nil_iff.2 fun a ha => by simp [hafter a ha]
    rw [List.filter_append, List.filter_cons_of_pos hv, h4]
    exact List.getLast?_concat _

/-! ## Claims on the scan -/

/-- C4: for every table and every finite frame sequence the scan returns a
map, and a string `k` is a key of that map exactly when some frame of the
sequence has no error layer, has a Dot11 layer, and has among `Address1` to
`Address4` an address `a` with `checkForEspressif(a)` true and
`a.String() = k`. -/
theorem scan_keys (T : List (List Nat)) (packets : List Packet) :
    ∃ m, scan T packets = some m ∧
      ∀ k, (∃ v, mapGet m k = some v) ↔
        ∃ p ∈ packets, p.ErrorLayer = none ∧ ∃ d, p.Dot11Layer = some d ∧
          ∃ a ∈ [d.Address1, d.Address2, d.Address3, d.Address4],
            checkForEspressif T a = some true ∧ hardwareAddrString a = k := by
  obtain ⟨m, h, hget, _⟩ := scan_spec T packets
  refine ⟨m, h, fun k => ?_⟩
  rw [hget k]
  constructor
  · rintro ⟨v, hv⟩
    have hmem : v ∈ packets.filter (carriesKey T k) := List.mem_of_getLast?_eq_some hv
    rw [List.mem_filter] at hmem
    exact ⟨v, hmem.1, (carriesKey_iff T k v).1 hmem.2⟩
  · rintro ⟨p, hp, hc⟩
    have hmem : p ∈ packets.filter (carriesKey T k) :=
      List.mem_filter.2 ⟨hp, (carriesKey_iff T k p).2 hc⟩
    cases hf : packets.filter (carriesKey T k) with
    | nil => rw [hf] at hmem; simp at hmem
    | cons x xs => exact ⟨_, List.getLast?_cons⟩

/-- C5: for every table and every finite frame sequence the scan returns a
map in which the frame stored under a key `k` is the last frame of the
sequence that has no error layer, has a Dot11 layer and carries a matching
address whose canonical string is `k` (no later frame carries `k`); and the
scan of two such frames that both carry the one matching address `k`, and no
other, is a map of size 1 that maps `k` to the second frame. -/
theorem scan_last_write_wins (T : List (List Nat)) (packets : List Packet) :
    (∃ m, scan T packets = some m ∧
      ∀ k v, mapGet m k = some v ↔
        ∃ before after, packets = before ++ v :: after ∧ carriesKey T k v = true ∧
          ∀ p ∈ after, carriesKey T k p = false) ∧
    (∀ f1 f2 k, carriesKey T k f1 = true → carriesKey T k f2 = true →
      (∀ j, carriesKey T j f1 = true → j = k) → (∀ j, carriesKey T j f2 = true → j = k) →
      ∃ m, scan T [f1, f2] = some m ∧ m.length = 1 ∧ mapGet m k = some f2) := by
  constructor
  · obtain ⟨m, h, hget, _⟩ := scan_spec T packets
    refine ⟨m, h, fun k v => ?_⟩
    rw [hget k]
    exact getLast?_filter_eq_some_iff (carriesKey T k) packets v
  · intro f1 f2 k h1 h2 only1 only2
    obtain ⟨m, h, hget, hnd⟩ := scan_spec T [f1, f2]
    have hk : mapGet m k = some f2 := by
      rw [hget k]
      simp [List.filter, h1, h2]
    refine ⟨m, h, ?_, hk⟩
    have hall : ∀ x ∈ m.map Prod.fst, x = k := by
      intro x hx
      obtain ⟨v, hv⟩ := (mapGet_isSome_iff m x).2 hx
      rw [hget x] at hv
      have hmem := List.mem_of_getLast?_eq_some hv
      rw [List.mem_filter] at hmem
      rcases hmem with ⟨hin, hc⟩
      simp only [List.mem_cons, List.mem_singleton, List.not_mem_nil, or_false] at hin
      rcases hin with rfl | rfl
      · exact only1 x hc
      · exact only2 x hc
    have hle : (m.map Prod.fst).length ≤ 1 := length_le_one_of_nodup_of_all_eq hnd hall
    have hpos : k ∈ m.map Prod.fst := (mapGet_isSome_iff m k).1 ⟨f2, hk⟩
    have hge : 0 < (m.map Prod.fst).length := List.length_pos_of_mem hpos
    simp only [List.length_map] at hle hge
    omega

/-- Witness of C5: two frames that carry `78:21:84:aa:bb:cc` and no other
matching address give a map of size 1 that holds the second frame. -/
theorem scan_last_write_wins_witness :
    ∃ m, scan exampleTable [exampleFrame1, exampleFrame2] = some m ∧ m.length = 1 ∧
      mapGet m (asciiBytes "78:21:84:aa:bb:cc") = some exampleFrame2 := by
  refine (scan_last_write_wins exampleTable []).2 exampleFrame1 exampleFrame2
    (asciiBytes "78:21:84:aa:bb:cc") (by decide) (by decide) ?_ ?_
  · intro j hj
    obtain ⟨_, d, hd, a, ha, hc, hs⟩ := (carriesKey_iff _ _ _).1 hj
    simp only [exampleFrame1, Option.some.injEq] at hd
    subst hd
    simp only [List.mem_cons, List.mem_singleton, List.not_mem_nil, or_false] at ha
    rcases ha with rfl | rfl | rfl | rfl
    · rw [← hs]; decide
    · exact absurd hc (by decide)
    · exact absurd hc (by decide)
    · exact absurd hc (by decide)
  · intro j hj
    obtain ⟨_, d, hd, a, ha, hc, hs⟩ := (carriesKey_iff _ _ _).1 hj
    simp only [exampleFrame2, Option.some.injEq] at hd
    subst hd
    simp only [List.mem_cons, List.mem_singleton, List.not_mem_nil, or_false] at ha
    rcases ha with rfl | rfl | rfl | rfl
    · exact absurd hc (by decide)
    · rw [← hs]; decide
    · exact absurd hc (by decide)
    · exact absurd hc (by decide)

/-- C6: frames with an error layer contribute nothing: for every table and
every frame sequence, the scan of the sequence and the scan of the sequence
without its error-flagged frames return the same map, whatever Dot11 layer
and addresses the removed frames carry. -/
theorem scan_error_frames_skipped (T : List (List Nat)) (packets : List Packet) :
    ∃ m, scan T packets = some m ∧
      scan T (packets.filter fun p => decide (p.ErrorLayer = none)) = some m := by
  obtain ⟨m, h, _⟩ := scan_spec T packets
  refine ⟨m, h, ?_⟩
  unfold scan at h ⊢
  rw [scanLoop_skip T _ ?_ packets [], h]
  intro p m0 hp
  have hne : p.ErrorLayer ≠ none := by simpa using hp
  unfold scanPacket
  cases hE : p.ErrorLayer with
  | none => exact absurd hE hne
  | some e => rfl

/-- C7: frames without a Dot11 layer contribute nothing: for every table and
every frame sequence, the scan of the sequence and the scan of the sequence
without the frames that lack a Dot11 layer return the same map, whatever
bytes the removed frames contain. -/
theorem scan_non_dot11_frames_skipped (T : List (List Nat)) (packets : List Packet) :
    ∃ m, scan T packets = some m ∧
      scan T (packets.filter fun p => p.Dot11Layer.isSome) = some m := by
  obtain ⟨m, h, _⟩ := scan_spec T packets
  refine ⟨m, h, ?_⟩
  unfold scan at h ⊢
  rw [scanLoop_skip T _ ?_ packets [], h]
  intro p m0 hp
  unfold scanPacket
  cases hD : p.Dot11Layer with
  | none => cases p.ErrorLayer <;> rfl
  | some d => simp [hD] at hp

/-! ## Table construction -/

theorem fromHexChar_eq_none_iff (b : Nat) : fromHexChar b = none ↔ isHexDigit b = false := by
  unfold fromHexChar isHexDigit
  have hm : b ∈ asciiBytes "0123456789abcdefABCDEF" ↔
      (48 ≤ b ∧ b ≤ 57) ∨ (97 ≤ b ∧ b ≤ 102) ∨ (65 ≤ b ∧ b ≤ 70) := by
    have : asciiBytes "0123456789abcdefABCDEF" =
        [48, 49, 50, 51, 52, 53, 54, 55, 56, 57, 97, 98, 99, 100, 101, 102,
          65, 66, 67, 68, 69, 70] := by decide
    rw [this]
    simp only [List.mem_cons, List.mem_singleton, List.not_mem_nil, or_false]
    omega
  by_cases h1 : 48 ≤ b ∧ b ≤ 57
  · simp [h1, hm]
  · by_cases h2 : 97 ≤ b ∧ b ≤ 102
    · simp [h1, h2, hm]
    · by_cases h3 : 65 ≤ b ∧ b ≤ 70
      · simp [h1, h2, h3, hm]
      · simp [h1, h2, h3, hm]

theorem decodeString_error_iff (col : List Nat) :
    (∃ e, decodeString col = .error e) ↔
      (col.length % 2 = 1 ∨ ∃ b ∈ col, isHexDigit b = false) := by
  induction col using decodeString.induct with
  | case1 => simp [decodeString]
  | case2 p h => simp [decodeString, h, (fromHexChar_eq_none_iff p).1 h]
  | case3 p a h => simp [decodeString, h]
  | case4 p q rest h => simp [decodeString, h, (fromHexChar_eq_none_iff p).1 h]
  | case5 p q rest a h1 h2 =>
    simp [decodeString, h1, h2, (fromHexChar_eq_none_iff q).1 h2]
  | case6 p q rest a h1 b h2 e h3 ih =>
    have hp : isHexDigit p = true := by
      cases hh : isHexDigit p with
      | true => rfl
      | false => rw [(fromHexChar_eq_none_iff p).2 hh] at h1; cases h1
    have hq : isHexDigit q = true := by
      cases hh : isHexDigit q with
      | true => rfl
      | false => rw [(fromHexChar_eq_none_iff q).2 hh] at h2; cases h2
    have ih2 := ih.1 ⟨e, h3⟩
    simp only [decodeString, h1, h2, h3, List.length_cons, List.mem_cons, exists_eq_or_imp,
      hp, hq, Bool.true_eq_false, false_or]
    constructor
    · intro _
      rcases ih2 with h | h
      · left; omega
      · right; exact h
    · intro _; exact ⟨_, rfl⟩
  | case7 p q rest a h1 b h2 bytes h3 ih =>
    have hp : isHexDigit p = true := by
      cases hh : isHexDigit p with
      | true => rfl
      | false => rw [(fromHexChar_eq_none_iff p).2 hh] at h1; cases h1
    have hq : isHexDigit q = true := by
      cases hh : isHexDigit q with
      | true => rfl
      | false => rw [(fromHexChar_eq_none_iff q).2 hh] at h2; cases h2
    have ih2 : ¬ (rest.length % 2 = 1 ∨ ∃ b ∈ rest, isHexDigit b = false) := by
      intro hcon
      obtain ⟨e, he⟩ := ih.2 hcon
      rw [h3] at he
      cases he
    simp only [decodeString, h1, h2, h3, List.length_cons, List.mem_cons, exists_eq_or_imp,
      hp, hq, Bool.true_eq_false, false_or]
    constructor
    · rintro ⟨e, he⟩; cases he
    · intro hcon
      exfalso
      apply ih2
      rcases hcon with h | h
      · left; omega
      · right; exact h

theorem malformedRow_eq_not_wellFormedRow (line : List Nat) :
    malformedRow line = !wellFormedRow line := by
  unfold malformedRow wellFormedRow
  cases hd : decodeString (firstColumn line) with
  | error e =>
    have h := (decodeString_error_iff (firstColumn line)).1 ⟨e, hd⟩
    have h2 : (decide ((firstColumn line).length % 2 = 1) ||
        (firstColumn line).any fun b => !isHexDigit b) = true := by
      rcases h with h | ⟨b, hb, hh⟩
      · simp [h]
      · simp only [Bool.or_eq_true, decide_eq_true_eq, List.any_eq_true, Bool.not_eq_true']
        exact Or.inr ⟨b, hb, hh⟩
    simp [h2]
  | ok pre =>
    have h : ¬ (∃ e, decodeString (firstColumn line) = .error e) := by
      rintro ⟨e, he⟩
      rw [hd] at he
      cases he
    rw [decodeString_error_iff] at h
    have h2 : (decide ((firstColumn line).length % 2 = 1) ||
        (firstColumn line).any fun b => !isHexDigit b) = false := by
      rw [Bool.eq_false_iff]
      intro hcon
      apply h
      simp only [Bool.or_eq_true, decide_eq_true_eq, List.any_eq_true, Bool.not_eq_true'] at hcon
      exact hcon
    simp only [h2, Bool.false_or]
    by_cases h3 : (splitTab line).length = 2 <;> by_cases h4 : pre.length ≤ 3 <;>
      first
        | (simp [h3, h4]; done)
        | (simp [h3, h4]; omega)

theorem initStep_of_wellFormedRow (T : List (List Nat)) (line : List Nat)
    (h : wellFormedRow line = true) :
    ∃ pre, decodeString (firstColumn line) = .ok pre ∧ pre.length ≤ 3 ∧
      initStep T line = .ok (T ++ [pre]) := by
  unfold wellFormedRow at h
  unfold initStep
  unfold firstColumn at h ⊢
  match hs : splitTab line with
  | [] => simp [hs] at h
  | [_] => simp [hs] at h
  | _ :: _ :: _ :: _ => simp [hs] at h
  | [column0, column1] =>
    simp only [hs, List.headD_cons] at h ⊢
    cases hd : decodeString column0 with
    | error e => simp [hd] at h
    | ok pre =>
      have h3 : pre.length ≤ 3 := by simpa [hd] using h
      have h4 : ¬ pre.length > 3 := by omega
      exact ⟨pre, rfl, h3, by simp [h4]⟩

theorem initStep_of_not_wellFormedRow (T : List (List Nat)) (line : List Nat)
    (h : wellFormedRow line = false) : ∃ e, initStep T line = .error e := by
  unfold wellFormedRow at h
  unfold initStep
  unfold firstColumn at h
  match hs : splitTab line with
  | [] => exact ⟨_, rfl⟩
  | [_] => exact ⟨_, rfl⟩
  | _ :: _ :: _ :: _ => exact ⟨_, rfl⟩
  | [column0, column1] =>
    simp only [hs, List.headD_cons] at h ⊢
    cases hd : decodeString column0 with
    | error e => exact ⟨_, rfl⟩
    | ok pre =>
      have h3 : pre.length > 3 := by simpa [hd] using h
      exact ⟨.ParsedInvalidPrefix column0 pre.length, by simp [h3]⟩

theorem initLoop_of_wellFormed :
    ∀ (rows : List (List Nat)) (T0 : List (List Nat)),
      (∀ r ∈ rows, wellFormedRow r = true) →
      ∃ T, initLoop rows T0 = .ok (T0 ++ T) ∧ T.length = rows.length ∧
        rows.map (fun r => decodeString (firstColumn r)) = T.map Except.ok ∧
        ∀ p ∈ T, p.length ≤ 3 := by
  intro rows
  induction rows with
  | nil => intro T0 _; exact ⟨[], by simp [initLoop], rfl, rfl, by simp⟩
  | cons r rest ih =>
    intro T0 h
    obtain ⟨pre, hd, hlen, hstep⟩ := initStep_of_wellFormedRow T0 r (h r (by simp))
    obtain ⟨T, hT, hl, hmap, hall⟩ := ih (T0 ++ [pre]) fun x hx => h x (by simp [hx])
    refine ⟨pre :: T, by simp [initLoop, hstep, hT], by simp [hl], by simp [hd, hmap], ?_⟩
    intro p hp
    rcases List.mem_cons.1 hp with rfl | hp
    · exact hlen
    · exact hall p hp

theorem initLoop_error_iff :
    ∀ (rows : List (List Nat)) (T0 : List (List Nat)),
      (∃ e, initLoop rows T0 = .error e) ↔ ∃ r ∈ rows, wellFormedRow r = false := by
  intro rows
  induction rows with
  | nil => intro T0; simp [initLoop]
  | cons r rest ih =>
    intro T0
    cases hw : wellFormedRow r with
    | false =>
      obtain ⟨e, he⟩ := initStep_of_not_wellFormedRow T0 r hw
      simp [initLoop, he, hw]
    | true =>
      obtain ⟨pre, _, _, hstep⟩ := initStep_of_wellFormedRow T0 r hw
      simp only [initLoop, hstep, ih (T0 ++ [pre]), List.mem_cons, exists_eq_or_imp, hw,
        Bool.true_eq_false, false_or]

/-! ## Claims on table construction -/

/-- C10: `init` over the embedded `espressifPrefixList` reaches no `Fatal`
call; the list has 98 rows and the table 98 prefixes, the `i`-th prefix
being the decoding of the first column of the `i`-th row, and every prefix
is exactly 3 bytes long. -/
theorem init_embedded :
    ∃ T, init = .ok T ∧ T.length = 98 ∧ (scanLines espressifPrefixList).length = 98 ∧
      (scanLines espressifPrefixList).map (fun r => decodeString (firstColumn r)) =
        T.map Except.ok ∧
      ∀ p ∈ T, p.length = 3 :=
  ⟨(init.toOption).getD [], rfl, by decide, by decide, rfl, by decide⟩

/-! ## Claims on the table and on matching, continued -/

theorem initLoop_ok_wellFormed (rows : List (List Nat)) (T0 T : List (List Nat))
    (h : initLoop rows T0 = .ok T) : ∀ r ∈ rows, wellFormedRow r = true := by
  intro r hr
  cases hw : wellFormedRow r with
  | true => rfl
  | false =>
    obtain ⟨e, he⟩ := (initLoop_error_iff rows T0).2 ⟨r, hr, hw⟩
    rw [h] at he
    cases he

/-- C11, amended: whenever the loop of `init`, started from the empty table,
succeeds, every prefix of the resulting table has at most 3 bytes; the empty
prefix is not excluded. -/
theorem initLoop_prefix_length_le (rows : List (List Nat)) (T : List (List Nat))
    (h : initLoop rows [] = .ok T) : ∀ p ∈ T, p.length ≤ 3 := by
  obtain ⟨T1, hT, _, _, hall⟩ :=
    initLoop_of_wellFormed rows [] (initLoop_ok_wellFormed rows [] T h)
  rw [h] at hT
  have hEq : T = T1 := by simpa using hT
  subst hEq
  exact hall

/-- Witness of C11: the table built from three well-formed rows. -/
theorem initLoop_prefix_length_le_witness :
    initLoop exampleRows [] = .ok [[0x78, 0x21, 0x84], [0x0c, 0xdc], [0x78, 0x21, 0x84]] ∧
    ∀ p ∈ [[0x78, 0x21, 0x84], [0x0c, 0xdc], [0x78, 0x21, 0x84]], p.length ≤ 3 :=
  ⟨rfl, initLoop_prefix_length_le exampleRows _ rfl⟩

/-- Counterexample to C11 as stated: on the one-row text `\tnone` table
construction succeeds and the table holds a prefix of 0 bytes. -/
theorem initFrom_empty_prefix :
    scanLines emptyPrefixRow = [emptyPrefixRow] ∧
    initLoop [emptyPrefixRow] [] = .ok [[]] ∧
    initFrom emptyPrefixRow = .ok [[]] ∧
    ¬ ∀ p ∈ [([] : List Nat)], 1 ≤ p.length ∧ p.length ≤ 3 :=
  ⟨by decide, rfl, rfl, by decide⟩

/-- C14: for every prefix table the scan of the empty frame sequence returns
the empty map, so the reported device count is 0. -/
theorem scan_empty (T : List (List Nat)) :
    scan T [] = some [] ∧ ∀ m, scan T [] = some m → m.length = 0 := by
  refine ⟨rfl, ?_⟩
  intro m h
  have : m = [] := by simpa [scan, scanLoop] using h.symm
  simp [this]

/-- C15: the result of `checkForEspressif` depends only on the set of
prefixes in the table, not on their order or multiplicity: two tables with
the same members give the same result for every address. -/
theorem checkForEspressif_same_members (mac : List Nat) (T1 T2 : List (List Nat))
    (h : ∀ p, p ∈ T1 ↔ p ∈ T2) : checkForEspressif T1 mac = checkForEspressif T2 mac := by
  rw [checkForEspressif_eq, checkForEspressif_eq, Option.some.injEq, Bool.eq_iff_iff]
  simp only [List.any_eq_true]
  constructor
  · rintro ⟨p, hp, hc⟩; exact ⟨p, (h p).1 hp, hc⟩
  · rintro ⟨p, hp, hc⟩; exact ⟨p, (h p).2 hp, hc⟩

/-- Witness of C15: a table and a reordering of it with one entry twice. -/
theorem checkForEspressif_same_members_witness :
    (∀ p, p ∈ [[0x78, 0x21, 0x84], [0x10, 0x97, 0xBD]] ↔
      p ∈ [[0x10, 0x97, 0xBD], [0x78, 0x21, 0x84], [0x10, 0x97, 0xBD]]) ∧
    checkForEspressif [[0x78, 0x21, 0x84], [0x10, 0x97, 0xBD]] exampleAddress =
      checkForEspressif [[0x10, 0x97, 0xBD], [0x78, 0x21, 0x84], [0x10, 0x97, 0xBD]]
        exampleAddress :=
  ⟨by intro p; simp only [List.mem_cons, List.mem_singleton, List.not_mem_nil]; tauto,
    checkForEspressif_same_members exampleAddress _ _
      (by intro p; simp only [List.mem_cons, List.mem_singleton, List.not_mem_nil]; tauto)⟩

/-- C16: `hasMacPrefix` never indexes out of range: for every `mac` and every
`prefix`, of any lengths, it returns a boolean and never takes the
out-of-range branch of `mac[i]`; when `len(prefix) > len(mac)` the guard
returns false before the loop, and otherwise every index the loop uses is
below `len(mac)`.  The loop on its own, entered with a longer prefix, does
take that branch. -/
theorem hasMacPrefix_no_panic (mac pre : List Nat) :
    (∃ b, hasMacPrefix mac pre = some b) ∧
    (mac.length < pre.length → hasMacPrefix mac pre = some false) ∧
    (∀ i, i + pre.length ≤ mac.length → ∃ b, hasMacPrefixLoop mac i pre = some b) ∧
    hasMacPrefixLoop [1] 0 [1, 2] = none := by
  refine ⟨⟨_, hasMacPrefix_eq mac pre⟩, ?_, ?_, rfl⟩
  · intro h
    have : ¬ pre.length ≤ mac.length := by omega
    simp [hasMacPrefix_eq, this]
  · intro i h
    exact ⟨_, hasMacPrefixLoop_eq mac pre i h⟩

/-! ## Claims on the scan, continued -/

/-- C17, amended: for every table and every finite frame sequence the scan
returns a map that maps each key to the frame it was last observed in: the
last frame of the sequence that has no error layer, has a Dot11 layer and
carries a matching address with that canonical string; a key no such frame
carries is absent. -/
theorem scan_maps_to_last_observed (T : List (List Nat)) (packets : List Packet) :
    ∃ m, scan T packets = some m ∧
      ∀ k, mapGet m k = (packets.filter (carriesKey T k)).getLast? := by
  obtain ⟨m, h, hget, _⟩ := scan_spec T packets
  exact ⟨m, h, hget⟩

/-- Counterexample to C17 as stated: of two frames that carry
`78:21:84:aa:bb:cc`, the first frame is the one the address is first observed
in, and the map holds the second. -/
theorem scan_not_first_observed :
    ([exampleFrame1, exampleFrame2].filter
      (carriesKey exampleTable (asciiBytes "78:21:84:aa:bb:cc"))).head? = some exampleFrame1 ∧
    scan exampleTable [exampleFrame1, exampleFrame2] =
      some [(asciiBytes "78:21:84:aa:bb:cc", exampleFrame2)] ∧
    mapGet [(asciiBytes "78:21:84:aa:bb:cc", exampleFrame2)] (asciiBytes "78:21:84:aa:bb:cc") ≠
      some exampleFrame1 := by
  refine ⟨by decide, by decide, by decide⟩

/-- C18: the scan is compositional over concatenation: for all frame
sequences `xs` and `ys` and every table, the three scans return maps, and
the map of `xs ++ ys` is the right-biased union of the map of `xs` and the
map of `ys`: a key of the map of `ys` has the frame it has there, any other
key has what the map of `xs` gives it. -/
theorem scan_append (T : List (List Nat)) (xs ys : List Packet) :
    ∃ mx my m, scan T xs = some mx ∧ scan T ys = some my ∧ scan T (xs ++ ys) = some m ∧
      ∀ k, mapGet m k =
        match mapGet my k with
        | some v => some v
        | none => mapGet mx k := by
  obtain ⟨mx, hx, hgx, _⟩ := scan_spec T xs
  obtain ⟨my, hy, hgy, _⟩ := scan_spec T ys
  obtain ⟨m, h, hg, _⟩ := scan_spec T (xs ++ ys)
  refine ⟨mx, my, m, hx, hy, h, fun k => ?_⟩
  rw [hg k, hgx k, hgy k, List.filter_append, List.getLast?_append]
  cases (ys.filter (carriesKey T k)).getLast? <;> simp

/-- C19: matching depends only on the leading three bytes: over a table all
of whose prefixes have at most 3 bytes, two addresses of at least 3 bytes
that agree on their first three bytes get the same result from
`checkForEspressif`. -/
theorem checkForEspressif_leading_three (T : List (List Nat)) (a b : List Nat)
    (hT : ∀ p ∈ T, p.length ≤ 3) (ha : 3 ≤ a.length) (hb : 3 ≤ b.length)
    (hab : a.take 3 = b.take 3) : checkForEspressif T a = checkForEspressif T b := by
  rw [checkForEspressif_eq, checkForEspressif_eq, Option.some.injEq, Bool.eq_iff_iff]
  simp only [List.any_eq_true, decide_eq_true_eq]
  have key : ∀ p ∈ T, a.take p.length = b.take p.length := by
    intro p hp
    have h3 := hT p hp
    have h1 : a.take p.length = (a.take 3).take p.length := by
      rw [List.take_take, Nat.min_eq_left h3]
    have h2 : b.take p.length = (b.take 3).take p.length := by
      rw [List.take_take, Nat.min_eq_left h3]
    rw [h1, h2, hab]
  constructor
  · rintro ⟨p, hp, _, he⟩
    exact ⟨p, hp, by have := hT p hp; omega, by rw [← key p hp]; exact he⟩
  · rintro ⟨p, hp, _, he⟩
    exact ⟨p, hp, by have := hT p hp; omega, by rw [key p hp]; exact he⟩

/-- Witness of C19: over the table `init` builds from the embedded list, all
of whose prefixes have at most 3 bytes, `78:21:84:AA:BB:CC` and
`78:21:84:00:00:01` get the same result. -/
theorem checkForEspressif_leading_three_witness :
    init = .ok ((init.toOption).getD []) ∧
    (∀ p ∈ (init.toOption).getD [], p.length ≤ 3) ∧
    checkForEspressif ((init.toOption).getD []) [0x78, 0x21, 0x84, 0xAA, 0xBB, 0xCC] =
      checkForEspressif ((init.toOption).getD []) [0x78, 0x21, 0x84, 0x00, 0x00, 0x01] :=
  ⟨rfl, by decide,
    checkForEspressif_leading_three _ _ _ (by decide) (by decide) (by decide) (by decide)⟩

theorem singleton_of_keys {m : MatchSet} {k : List Nat} {v : Packet}
    (hnd : (m.map Prod.fst).Nodup) (hall : ∀ x ∈ m.map Prod.fst, x = k)
    (hget : mapGet m k = some v) : m = [(k, v)] := by
  match m, hnd, hall, hget with
  | [], _, _, hget => simp [mapGet] at hget
  | [(k0, v0)], _, hall, hget =>
    have hk : k0 = k := hall k0 (by simp)
    subst hk
    simp only [mapGet, if_true, Option.some.injEq] at hget
    rw [hget]
  | a :: b :: _, hnd, hall, _ =>
    have ha : a.1 = k := hall a.1 (by simp)
    have hb : b.1 = k := hall b.1 (by simp)
    simp [ha, hb] at hnd

theorem scan_spec_keys (T : List (List Nat)) (packets : List Packet) (m : MatchSet)
    (hget : ∀ k, mapGet m k = (packets.filter (carriesKey T k)).getLast?) (k : List Nat) :
    k ∈ m.map Prod.fst ↔ ∃ p ∈ packets, carriesKey T k p = true := by
  rw [← mapGet_isSome_iff, hget k]
  constructor
  · rintro ⟨v, hv⟩
    have hmem := List.mem_of_getLast?_eq_some hv
    rw [List.mem_filter] at hmem
    exact ⟨v, hmem.1, hmem.2⟩
  · rintro ⟨p, hp, hc⟩
    have hmem : p ∈ packets.filter (carriesKey T k) := List.mem_filter.2 ⟨hp, hc⟩
    cases hf : packets.filter (carriesKey T k) with
    | nil => rw [hf] at hmem; simp at hmem
    | cons x xs => exact ⟨_, List.getLast?_cons⟩

/-- C13, amended: the scan of a sequence of exactly one frame that has no
error layer, has a Dot11 layer and has an address `a` matching a known
prefix, all matching addresses of the frame having the canonical string of
`a`, is a map of size 1: its one entry has the key `a.String()` and holds
that frame. -/
theorem scan_single_frame (T : List (List Nat)) (f : Packet) (d : Dot11) (a : List Nat)
    (hE : f.ErrorLayer = none) (hD : f.Dot11Layer = some d)
    (ha : a ∈ [d.Address1, d.Address2, d.Address3, d.Address4])
    (hm : checkForEspressif T a = some true)
    (honly : ∀ a' ∈ [d.Address1, d.Address2, d.Address3, d.Address4],
      checkForEspressif T a' = some true → hardwareAddrString a' = hardwareAddrString a) :
    scan T [f] = some [(hardwareAddrString a, f)] := by
  obtain ⟨m, h, hget, hnd⟩ := scan_spec T [f]
  have hc : carriesKey T (hardwareAddrString a) f = true :=
    (carriesKey_iff T _ f).2 ⟨hE, d, hD, a, ha, hm, rfl⟩
  have hk : mapGet m (hardwareAddrString a) = some f := by
    rw [hget]
    simp [List.filter, hc]
  have hall : ∀ x ∈ m.map Prod.fst, x = hardwareAddrString a := by
    intro x hx
    obtain ⟨p, hp, hcx⟩ := (scan_spec_keys T [f] m hget x).1 hx
    have hpf : p = f := by simpa using hp
    subst hpf
    obtain ⟨_, d', hD', a', ha', hm', hs⟩ := (carriesKey_iff T x p).1 hcx
    rw [hD] at hD'
    cases hD'
    rw [← hs]
    exact honly a' ha' hm'
  rw [h, singleton_of_keys hnd hall hk]

/-- Witness of C13: one frame that carries `78:21:84:AA:BB:CC` as `Address1`
and no other matching address. -/
theorem scan_single_frame_witness :
    scan exampleTable [exampleFrame1] =
      some [(hardwareAddrString exampleAddress, exampleFrame1)] :=
  scan_single_frame exampleTable exampleFrame1 ⟨exampleAddress, [], [], []⟩ exampleAddress
    rfl rfl (by decide) (by decide) (by decide)

/-- Counterexample to C13 as stated: one frame without error layer, with a
Dot11 layer, whose `Address1` matches a known prefix, and whose `Address2` is
another matching address: the map has size 2. -/
theorem single_frame_two_devices_size_two :
    exampleFrameTwoDevices.ErrorLayer = none ∧
    exampleFrameTwoDevices.Dot11Layer =
      some ⟨exampleAddress, exampleAddress2, [], []⟩ ∧
    checkForEspressif exampleTable exampleAddress = some true ∧
    scan exampleTable [exampleFrameTwoDevices] =
      some [(asciiBytes "78:21:84:aa:bb:cc", exampleFrameTwoDevices),
        (asciiBytes "78:21:84:00:00:01", exampleFrameTwoDevices)] ∧
    ¬ ∃ m, scan exampleTable [exampleFrameTwoDevices] = some m ∧ m.length = 1 := by
  refine ⟨rfl, rfl, by decide, by decide, ?_⟩
  rintro ⟨m, hm, hlen⟩
  have h2 : scan exampleTable [exampleFrameTwoDevices] =
      some [(asciiBytes "78:21:84:aa:bb:cc", exampleFrameTwoDevices),
        (asciiBytes "78:21:84:00:00:01", exampleFrameTwoDevices)] := by decide
  rw [h2] at hm
  cases hm
  simp at hlen

/-! ## The canonical string and the device count -/

theorem hexDigit_getD (i : Nat) (h : i < 16) :
    hexDigit.getD i 0 = if i < 10 then 48 + i else 87 + i := by
  interval_cases i <;> decide

theorem hexDigit_getD_inj (i j : Nat) (hi : i < 16) (hj : j < 16)
    (h : hexDigit.getD i 0 = hexDigit.getD j 0) : i = j := by
  rw [hexDigit_getD i hi, hexDigit_getD j hj] at h
  split_ifs at h <;> omega

theorem byte_eq_of_digits (b c : Nat) (hb : b < 256) (hc : c < 256)
    (h1 : hexDigit.getD (b / 16) 0 = hexDigit.getD (c / 16) 0)
    (h2 : hexDigit.getD (b % 16) 0 = hexDigit.getD (c % 16) 0) : b = c := by
  have e1 := hexDigit_getD_inj (b / 16) (c / 16) (by omega) (by omega) h1
  have e2 := hexDigit_getD_inj (b % 16) (c % 16) (by omega) (by omega) h2
  omega

theorem hardwareAddrString_inj :
    ∀ (a a' : List Nat), (∀ b ∈ a, b < 256) → (∀ b ∈ a', b < 256) →
      hardwareAddrString a = hardwareAddrString a' → a = a'
  | [], [], _, _, _ => rfl
  | [], [_], _, _, h => by simp [hardwareAddrString] at h
  | [], _ :: _ :: _, _, _, h => by simp [hardwareAddrString] at h
  | [_], [], _, _, h => by simp [hardwareAddrString] at h
  | _ :: _ :: _, [], _, _, h => by simp [hardwareAddrString] at h
  | [b], [c], hb, hc, h => by
    simp only [hardwareAddrString, List.cons.injEq, and_true] at h
    rw [byte_eq_of_digits b c (hb b (by simp)) (hc c (by simp)) h.1 h.2]
  | [_], _ :: _ :: _, _, _, h => by simp [hardwareAddrString] at h
  | _ :: _ :: _, [_], _, _, h => by simp [hardwareAddrString] at h
  | b :: b2 :: r, c :: c2 :: r', hb, hc, h => by
    simp only [hardwareAddrString, List.cons.injEq, true_and] at h
    obtain ⟨h1, h2, h3⟩ := h
    have e := byte_eq_of_digits b c (hb b (by simp)) (hc c (by simp)) h1 h2
    have ih := hardwareAddrString_inj (b2 :: r) (c2 :: r')
      (fun x hx => hb x (List.mem_cons_of_mem _ hx))
      (fun x hx => hc x (List.mem_cons_of_mem _ hx)) h3
    rw [e, ih]

theorem mem_matchingAddresses (T : List (List Nat)) (packets : List Packet) (a : List Nat) :
    a ∈ matchingAddresses T packets ↔
      ∃ p ∈ packets, p.ErrorLayer = none ∧ ∃ d, p.Dot11Layer = some d ∧
        a ∈ [d.Address1, d.Address2, d.Address3, d.Address4] ∧
        checkForEspressif T a = some true := by
  unfold matchingAddresses
  rw [List.mem_flatMap]
  constructor
  · rintro ⟨p, hp, ha⟩
    refine ⟨p, hp, ?_⟩
    cases hE : p.ErrorLayer with
    | some e => simp [hE] at ha
    | none =>
      cases hD : p.Dot11Layer with
      | none => simp [hE, hD] at ha
      | some d =>
        simp only [hE, hD, List.mem_filter, decide_eq_true_eq] at ha
        exact ⟨rfl, d, rfl, ha.1, ha.2⟩
  · rintro ⟨p, hp, hE, d, hD, ha, hm⟩
    refine ⟨p, hp, ?_⟩
    simp only [hE, hD, List.mem_filter, decide_eq_true_eq]
    exact ⟨ha, hm⟩

theorem bytes_of_mem_matchingAddresses (T : List (List Nat)) (packets : List Packet)
    (hbytes : ∀ p ∈ packets, addressBytesValid p = true) (a : List Nat)
    (ha : a ∈ matchingAddresses T packets) : ∀ b ∈ a, b < 256 := by
  obtain ⟨p, hp, _, d, hD, hmem, _⟩ := (mem_matchingAddresses T packets a).1 ha
  have hv := hbytes p hp
  unfold addressBytesValid at hv
  rw [hD] at hv
  simp only [List.all_eq_true, decide_eq_true_eq] at hv
  exact hv a hmem

/-- C12: for every table and every finite frame sequence whose address fields
hold bytes, the scan returns a map whose size, the reported device count, is
the number of distinct hardware addresses, as byte sequences, that match the
table among the four address fields of the frames without error layer and
with a Dot11 layer; the canonical string never gives two different such
addresses the same key. -/
theorem scan_count_distinct_addresses (T : List (List Nat)) (packets : List Packet)
    (hbytes : ∀ p ∈ packets, addressBytesValid p = true) :
    ∃ m, scan T packets = some m ∧
      m.length = (matchingAddresses T packets).dedup.length ∧
      ∀ a ∈ matchingAddresses T packets, ∀ a' ∈ matchingAddresses T packets,
        hardwareAddrString a = hardwareAddrString a' → a = a' := by
  obtain ⟨m, h, hget, hnd⟩ := scan_spec T packets
  have hinj : ∀ a ∈ matchingAddresses T packets, ∀ a' ∈ matchingAddresses T packets,
      hardwareAddrString a = hardwareAddrString a' → a = a' := fun a ha a' ha' hs =>
    hardwareAddrString_inj a a' (bytes_of_mem_matchingAddresses T packets hbytes a ha)
      (bytes_of_mem_matchingAddresses T packets hbytes a' ha') hs
  have hkeys : (m.map Prod.fst).toFinset =
      (matchingAddresses T packets).toFinset.image hardwareAddrString := by
    ext k
    simp only [List.mem_toFinset, Finset.mem_image]
    rw [scan_spec_keys T packets m hget k]
    constructor
    · rintro ⟨p, hp, hc⟩
      obtain ⟨hE, d, hD, a, ha, hm, hs⟩ := (carriesKey_iff T k p).1 hc
      exact ⟨a, (mem_matchingAddresses T packets a).2 ⟨p, hp, hE, d, hD, ha, hm⟩, hs⟩
    · rintro ⟨a, ha, hs⟩
      obtain ⟨p, hp, hE, d, hD, hmem, hm⟩ := (mem_matchingAddresses T packets a).1 ha
      exact ⟨p, hp, (carriesKey_iff T k p).2 ⟨hE, d, hD, a, hmem, hm, hs⟩⟩
  refine ⟨m, h, ?_, hinj⟩
  calc m.length = (m.map Prod.fst).length := by simp
    _ = (m.map Prod.fst).toFinset.card := (List.toFinset_card_of_nodup hnd).symm
    _ = ((matchingAddresses T packets).toFinset.image hardwareAddrString).card := by rw [hkeys]
    _ = (matchingAddresses T packets).toFinset.card :=
        Finset.card_image_of_injOn fun a ha a' ha' hs =>
          hinj a (by simpa using ha) a' (by simpa using ha') hs
    _ = (matchingAddresses T packets).dedup.length := List.card_toFinset _

/-- Witness of C12: three frames that carry two different matching addresses,
one of them three times. -/
theorem scan_count_distinct_addresses_witness :
    (∀ p ∈ [exampleFrame1, exampleFrame2, exampleFrameTwoDevices],
      addressBytesValid p = true) ∧
    (matchingAddresses exampleTable
      [exampleFrame1, exampleFrame2, exampleFrameTwoDevices]).dedup.length = 2 ∧
    ∃ m, scan exampleTable [exampleFrame1, exampleFrame2, exampleFrameTwoDevices] = some m ∧
      m.length = (matchingAddresses exampleTable
        [exampleFrame1, exampleFrame2, exampleFrameTwoDevices]).dedup.length ∧
      ∀ a ∈ matchingAddresses exampleTable
          [exampleFrame1, exampleFrame2, exampleFrameTwoDevices],
        ∀ a' ∈ matchingAddresses exampleTable
          [exampleFrame1, exampleFrame2, exampleFrameTwoDevices],
        hardwareAddrString a = hardwareAddrString a' → a = a' :=
  ⟨by decide, by decide, scan_count_distinct_addresses exampleTable _ (by decide)⟩

/-! ## The scanner and the rows of a text -/

theorem scanLinesFrom_eq_textLinesFrom :
    ∀ (text cur : List Nat),
      (∀ l ∈ textLinesFrom cur text, l.length < maxScanTokenSize) →
      scanLinesFrom cur text = (textLinesFrom cur text).map dropCR := by
  intro text
  induction text with
  | nil =>
    intro cur h
    by_cases hc : cur = []
    · simp [scanLinesFrom, textLinesFrom, hc]
    · have hl : cur.reverse.length < maxScanTokenSize :=
        h cur.reverse (by simp [textLinesFrom, hc])
      have hl2 : ¬ cur.length ≥ maxScanTokenSize := by
        rw [List.length_reverse] at hl; omega
      simp [scanLinesFrom, textLinesFrom, hc, hl2]
  | cons b rest ih =>
    intro cur h
    by_cases hb : b = newline
    · have hl : cur.reverse.length < maxScanTokenSize :=
        h cur.reverse (by simp [textLinesFrom, hb])
      have hl2 : ¬ cur.length ≥ maxScanTokenSize := by
        rw [List.length_reverse] at hl; omega
      have hrest := ih [] fun l hl => h l (by simp [textLinesFrom, hb, hl])
      simp [scanLinesFrom, textLinesFrom, hb, hl2, hrest]
    · have hrest := ih (b :: cur) fun l hl => h l (by simpa [textLinesFrom, hb] using hl)
      simp [scanLinesFrom, textLinesFrom, hb, hrest]

theorem scanLines_eq_textRows (text : List Nat)
    (h : ∀ l ∈ textLines text, l.length < maxScanTokenSize) :
    scanLines text = textRows text :=
  scanLinesFrom_eq_textLinesFrom text [] h

theorem textLinesFrom_replicate (x : Nat) (hx : x ≠ newline) (rest : List Nat) :
    ∀ (n : Nat) (cur : List Nat),
      textLinesFrom cur (List.replicate n x ++ rest) =
        textLinesFrom (List.replicate n x ++ cur) rest := by
  intro n
  induction n with
  | zero => intro cur; rfl
  | succ n ih =>
    intro cur
    have e : List.replicate (n + 1) x ++ cur = List.replicate n x ++ x :: cur := by
      rw [List.replicate_succ', List.append_assoc]; rfl
    rw [e, ← ih (x :: cur), List.replicate_succ, List.cons_append]
    simp only [textLinesFrom, hx, if_false]

theorem scanLinesFrom_replicate (x : Nat) (hx : x ≠ newline) (rest : List Nat) :
    ∀ (n : Nat) (cur : List Nat),
      scanLinesFrom cur (List.replicate n x ++ rest) =
        scanLinesFrom (List.replicate n x ++ cur) rest := by
  intro n
  induction n with
  | zero => intro cur; rfl
  | succ n ih =>
    intro cur
    have e : List.replicate (n + 1) x ++ cur = List.replicate n x ++ x :: cur := by
      rw [List.replicate_succ', List.append_assoc]; rfl
    rw [e, ← ih (x :: cur), List.replicate_succ, List.cons_append]
    simp only [scanLinesFrom, hx, if_false]

/-! ## A row of 64 KiB -/

theorem longRowOf_eq (n : Nat) : longRowOf n = 98 :: 98 :: 9 :: List.replicate n 120 := by
  have e : asciiBytes "bb\t" = [98, 98, 9] := by decide
  simp [longRowOf, e]

theorem longRowOf_length (n : Nat) : (longRowOf n).length = n + 3 := by
  simp [longRowOf_eq]

theorem splitTab_replicate (n : Nat) :
    splitTab (List.replicate n 120) = [List.replicate n 120] := by
  induction n with
  | zero => rfl
  | succ n ih => simp [List.replicate_succ, splitTab, ih, tab]

theorem wellFormedRow_longRowOf (n : Nat) : wellFormedRow (longRowOf n) = true := by
  have hs : splitTab (longRowOf n) = [[98, 98], List.replicate n 120] := by
    simp [longRowOf_eq, splitTab, splitTab_replicate, tab]
  have hd : decodeString [98, 98] = .ok [0xbb] := by rfl
  simp [wellFormedRow, firstColumn, hs, hd]

theorem dropCR_longRowOf (n : Nat) : dropCR (longRowOf n) = longRowOf n := by
  have h : (longRowOf n).getLast? ≠ some carriageReturn := by
    rw [longRowOf_eq]
    cases n with
    | zero => decide
    | succ n =>
      have e : 98 :: 98 :: 9 :: List.replicate (n + 1) 120 =
          (98 :: 98 :: 9 :: List.replicate n 120) ++ [120] := by
        rw [List.replicate_succ']; rfl
      rw [e, List.getLast?_concat]
      decide
  simp [dropCR, h]

theorem textLines_long (n : Nat) (tail : List Nat) :
    textLines (asciiBytes "aa\tb\n" ++ (longRowOf n ++ newline :: tail)) =
      asciiBytes "aa\tb" :: longRowOf n :: textLines tail := by
  have e1 : asciiBytes "aa\tb\n" = [97, 97, 9, 98, 10] := by decide
  have e2 : asciiBytes "aa\tb" = [97, 97, 9, 98] := by decide
  have h1 : textLinesFrom [] (98 :: 98 :: 9 :: (List.replicate n 120 ++ newline :: tail)) =
      textLinesFrom [9, 98, 98] (List.replicate n 120 ++ newline :: tail) := by
    simp [textLinesFrom, newline]
  have h2 : textLinesFrom (List.replicate n 120 ++ [9, 98, 98]) (newline :: tail) =
      (98 :: 98 :: 9 :: List.replicate n 120) :: textLinesFrom [] tail := by
    simp [textLinesFrom]
  rw [e1, e2, longRowOf_eq]
  simp only [textLines, List.cons_append, List.nil_append]
  have h0 : ∀ X, textLinesFrom [] (97 :: 97 :: 9 :: 98 :: 10 :: X) =
      [97, 97, 9, 98] :: textLinesFrom [] X := by
    intro X; simp [textLinesFrom, newline]
  rw [h0, h1, textLinesFrom_replicate 120 (by decide), h2]

theorem scanLines_long (n : Nat) (hn : maxScanTokenSize ≤ n + 3) (tail : List Nat) :
    scanLines (asciiBytes "aa\tb\n" ++ (longRowOf n ++ newline :: tail)) =
      [asciiBytes "aa\tb"] := by
  have e1 : asciiBytes "aa\tb\n" = [97, 97, 9, 98, 10] := by decide
  have e2 : asciiBytes "aa\tb" = [97, 97, 9, 98] := by decide
  have h1 : scanLinesFrom [] (98 :: 98 :: 9 :: (List.replicate n 120 ++ newline :: tail)) =
      scanLinesFrom [9, 98, 98] (List.replicate n 120 ++ newline :: tail) := by
    simp [scanLinesFrom, newline]
  have h2 : scanLinesFrom (List.replicate n 120 ++ [9, 98, 98]) (newline :: tail) = [] := by
    have hl : (List.replicate n 120 ++ [9, 98, 98]).length ≥ maxScanTokenSize := by
      simp only [List.length_append, List.length_replicate, List.length_cons, List.length_nil]
      omega
    simp only [scanLinesFrom, if_true, hl]
  have hd : dropCR [97, 97, 9, 98] = [97, 97, 9, 98] := by decide
  rw [e1, e2, longRowOf_eq]
  simp only [scanLines, List.cons_append, List.nil_append]
  have h0 : ∀ X, scanLinesFrom [] (97 :: 97 :: 9 :: 98 :: 10 :: X) =
      [97, 97, 9, 98] :: scanLinesFrom [] X := by
    intro X
    have hlen : ¬ (4 : Nat) ≥ maxScanTokenSize := by decide
    simp [scanLinesFrom, newline, hlen, hd]
  rw [h0, h1, scanLinesFrom_replicate 120 (by decide), h2]

theorem longRowText_rows (n : Nat) :
    textRows (longRowText n) = [asciiBytes "aa\tb", longRowOf n, asciiBytes "cc\td"] := by
  have e3 : asciiBytes "\ncc\td" = newline :: asciiBytes "cc\td" := by decide
  have e4 : textLines (asciiBytes "cc\td") = [asciiBytes "cc\td"] := by decide
  have e5 : dropCR (asciiBytes "aa\tb") = asciiBytes "aa\tb" := by decide
  have e6 : dropCR (asciiBytes "cc\td") = asciiBytes "cc\td" := by decide
  unfold textRows longRowText
  rw [e3, textLines_long, e4]
  simp only [List.map_cons, List.map_nil, dropCR_longRowOf, e5, e6]

theorem longRowThenMalformedText_rows (n : Nat) :
    textRows (longRowThenMalformedText n) =
      [asciiBytes "aa\tb", longRowOf n, asciiBytes "zz"] := by
  have e3 : asciiBytes "\nzz" = newline :: asciiBytes "zz" := by decide
  have e4 : textLines (asciiBytes "zz") = [asciiBytes "zz"] := by decide
  have e5 : dropCR (asciiBytes "aa\tb") = asciiBytes "aa\tb" := by decide
  have e6 : dropCR (asciiBytes "zz") = asciiBytes "zz" := by decide
  unfold textRows longRowThenMalformedText
  rw [e3, textLines_long, e4]
  simp only [List.map_cons, List.map_nil, dropCR_longRowOf, e5, e6]

theorem longRowText_wellFormed (n : Nat) :
    ∀ r ∈ textRows (longRowText n), wellFormedRow r = true := by
  intro r hr
  rw [longRowText_rows] at hr
  simp only [List.mem_cons, List.mem_singleton, List.not_mem_nil, or_false] at hr
  rcases hr with rfl | rfl | rfl
  · decide
  · exact wellFormedRow_longRowOf n
  · decide

theorem initFrom_longRowText (n : Nat) (hn : maxScanTokenSize ≤ n + 3) :
    initFrom (longRowText n) = .ok [[0xaa]] := by
  have e3 : asciiBytes "\ncc\td" = newline :: asciiBytes "cc\td" := by decide
  unfold initFrom longRowText
  rw [e3, scanLines_long n hn]
  rfl

theorem initFrom_longRowThenMalformedText (n : Nat) (hn : maxScanTokenSize ≤ n + 3) :
    initFrom (longRowThenMalformedText n) = .ok [[0xaa]] := by
  have e3 : asciiBytes "\nzz" = newline :: asciiBytes "zz" := by decide
  unfold initFrom longRowThenMalformedText
  rw [e3, scanLines_long n hn]
  rfl

/-! ## Claims on table construction from a text -/

/-- C8, amended: for every input text of `N` rows that are all well-formed
(two columns, a first column that decodes as hexadecimal, a decoded prefix of
at most 3 bytes) and whose lines are all shorter than 65536 bytes
(`bufio.MaxScanTokenSize`), table construction succeeds with a table of
exactly `N` prefixes, whose `i`-th prefix is the hexadecimal decoding of the
first column of the `i`-th row: input order is kept, and so are duplicates. -/
theorem initFrom_wellFormed_rows (text : List Nat)
    (hlen : ∀ l ∈ textLines text, l.length < maxScanTokenSize)
    (h : ∀ r ∈ textRows text, wellFormedRow r = true) :
    ∃ T, initFrom text = .ok T ∧ T.length = (textRows text).length ∧
      (textRows text).map (fun r => decodeString (firstColumn r)) = T.map Except.ok := by
  obtain ⟨T, hT, hl, hmap, _⟩ := initLoop_of_wellFormed (textRows text) [] h
  refine ⟨T, ?_, hl, hmap⟩
  unfold initFrom
  rw [scanLines_eq_textRows text hlen]
  simpa using hT

/-- Witness of C8: a text of three well-formed rows, one of them twice, gives
a table of three prefixes. -/
theorem initFrom_wellFormed_rows_witness :
    (∀ l ∈ textLines exampleText, l.length < maxScanTokenSize) ∧
    (∀ r ∈ textRows exampleText, wellFormedRow r = true) ∧
    (textRows exampleText).length = 3 ∧
    ∃ T, initFrom exampleText = .ok T ∧ T.length = (textRows exampleText).length ∧
      (textRows exampleText).map (fun r => decodeString (firstColumn r)) =
        T.map Except.ok :=
  ⟨by decide, by decide, by decide,
    initFrom_wellFormed_rows exampleText (by decide) (by decide)⟩

/-- Counterexample to C8 as stated: a text of three well-formed rows whose
second row has 65536 bytes; the scanner stops at that row and table
construction succeeds with one prefix, not three. -/
theorem initFrom_long_row_one_prefix :
    textRows (longRowText 65533) =
      [asciiBytes "aa\tb", longRowOf 65533, asciiBytes "cc\td"] ∧
    (∀ r ∈ textRows (longRowText 65533), wellFormedRow r = true) ∧
    (longRowOf 65533).length = 65536 ∧
    initFrom (longRowText 65533) = .ok [[0xaa]] ∧
    ¬ ∃ T, initFrom (longRowText 65533) = .ok T ∧
      T.length = (textRows (longRowText 65533)).length := by
  refine ⟨longRowText_rows 65533, longRowText_wellFormed 65533, longRowOf_length 65533,
    initFrom_longRowText 65533 (by decide), ?_⟩
  rintro ⟨T, hT, hlen⟩
  rw [initFrom_longRowText 65533 (by decide)] at hT
  rw [longRowText_rows] at hlen
  cases hT
  simp only [List.length_cons, List.length_nil] at hlen
  omega

/-- C9, amended: for every input text whose lines are all shorter than 65536
bytes (`bufio.MaxScanTokenSize`), table construction ends in a `Fatal` call,
and so produces no table, exactly when some row of the text is malformed: it
does not split on TAB into exactly two columns, or its first column has an
odd number of characters or a character that is no hexadecimal character, or
its decoded prefix is longer than 3 bytes. -/
theorem initFrom_fatal_iff (text : List Nat)
    (hlen : ∀ l ∈ textLines text, l.length < maxScanTokenSize) :
    (∃ e, initFrom text = .error e) ↔ ∃ r ∈ textRows text, malformedRow r = true := by
  unfold initFrom
  rw [scanLines_eq_textRows text hlen, initLoop_error_iff]
  simp only [malformedRow_eq_not_wellFormedRow, Bool.not_eq_true']

/-- Witness of C9: a text whose second row is malformed ends in a `Fatal`. -/
theorem initFrom_fatal_iff_witness :
    (∀ l ∈ textLines exampleMalformedText, l.length < maxScanTokenSize) ∧
    (∃ r ∈ textRows exampleMalformedText, malformedRow r = true) ∧
    ∃ e, initFrom exampleMalformedText = .error e :=
  ⟨by decide, by decide, (initFrom_fatal_iff exampleMalformedText (by decide)).2 (by decide)⟩

/-- Counterexample to C9 as stated: a text whose second row has 65536 bytes
and whose third row `zz` is malformed; the scanner stops at the second row,
the third is never read, and table construction succeeds. -/
theorem initFrom_long_row_hides_malformed :
    textRows (longRowThenMalformedText 65533) =
      [asciiBytes "aa\tb", longRowOf 65533, asciiBytes "zz"] ∧
    malformedRow (asciiBytes "zz") = true ∧
    (longRowOf 65533).length = 65536 ∧
    initFrom (longRowThenMalformedText 65533) = .ok [[0xaa]] ∧
    ¬ ((∃ e, initFrom (longRowThenMalformedText 65533) = .error e) ↔
      ∃ r ∈ textRows (longRowThenMalformedText 65533), malformedRow r = true) := by
  refine ⟨longRowThenMalformedText_rows 65533, by decide, longRowOf_length 65533,
    initFrom_longRowThenMalformedText 65533 (by decide), ?_⟩
  intro hiff
  have hmal : ∃ r ∈ textRows (longRowThenMalformedText 65533), malformedRow r = true := by
    rw [longRowThenMalformedText_rows]
    exact ⟨asciiBytes "zz", by simp, by decide⟩
  obtain ⟨e, he⟩ := hiff.2 hmal
  rw [initFrom_longRowThenMalformedText 65533 (by decide)] at he
  cases he

end Espwhere
